import Mathlib

/-!
Verification of the resolve library core (base.go and the wildcard detector)
against its natural-language specification.

Go strings are modelled as lists of characters (`GoStr`), Go `time.Time` and
`time.Duration` values as integers counting nanoseconds, and Go maps as
functions into `Option`.  Sources of nondeterminism (the network, the
process-wide random source) are passed in as explicit parameters.
-/

namespace Resolve

/-- Go strings, modelled as their character lists so that every string
operation reduces structurally. -/
abbrev GoStr := List Char

/-- Model of Go `strings.Split(s, sep)` for a one-character separator:
splitting the empty string yields `[""]`, matching Go. -/
def splitOnChar (sep : Char) : GoStr → List GoStr
  | [] => [[]]
  | c :: rest =>
    let r := splitOnChar sep rest
    if c = sep then [] :: r
    else
      match r with
      | [] => [[c]]
      | h :: t => (c :: h) :: t

/-- Model of Go `strings.Join(parts, sep)` for a one-character separator. -/
def joinChar (sep : Char) : List GoStr → GoStr
  | [] => []
  | [x] => x
  | x :: xs => x ++ sep :: joinChar sep xs

/-- Model of Go `strings.ToLower` on the ASCII names the library handles. -/
def toLowerStr (s : GoStr) : GoStr := s.map Char.toLower

/-- Model of Go `strings.Trim(s, cutset)` for a one-character cutset:
removes every leading and trailing occurrence of `c`. -/
def trimChar (c : Char) (s : GoStr) : GoStr :=
  ((s.dropWhile (· = c)).reverse.dropWhile (· = c)).reverse

/-- Modelled from the spec: `RemoveLastDot(s)` strips a single trailing
dot; the helper's own source file is not under src/. -/
def RemoveLastDot (s : GoStr) : GoStr :=
  if s.getLast? = some '.' then s.dropLast else s

/-- Membership test on a list of strings, the model of the string-set
`Has` operation. -/
def hasStr : List GoStr → GoStr → Bool
  | [], _ => false
  | y :: ys, x => if x = y then true else hasStr ys x

/-- One answer extracted from a DNS response: name, record type, and the
canonically rendered data string (the shape of `ExtractedAnswer`). -/
structure ExtractedAnswer where
  Name : GoStr
  Rrtype : Nat
  Data : GoStr
  deriving DecidableEq

/-- One entry of a DNS question section. -/
structure Question where
  Name : GoStr
  Qtype : Nat
  deriving DecidableEq

/-- The parts of a `dns.Msg` the core inspects: identifier, question
section, response code, truncation flag, and the answer section already in
extracted form. -/
structure Msg where
  Id : Nat
  Question : List Question
  Rcode : Nat
  Truncated : Bool
  Answer : List ExtractedAnswer
  deriving DecidableEq

/-- Modelled from the spec: `ExtractAnswers(msg)` renders the answer
section as `(name, rrtype, data)` triples; the helper's source is not
under src/, so the message model carries its answers already extracted. -/
def ExtractAnswers (m : Msg) : List ExtractedAnswer := m.Answer

/-- `msg.Question[0]`, with a harmless default for the empty question
section the code never reaches. -/
def question0 (m : Msg) : Question := m.Question.headD ⟨[], 0⟩

/-! ## Constants from wildcards.go -/

def MaxDNSNameLen : Nat := 253
def MaxDNSLabelLen : Nat := 63
def MinLabelLen : Nat := 6
def MaxLabelLen : Nat := 24

/-- The LDH character set, as the rune slice `[]rune(LDHChars)`. -/
def LDHChars : List Char := "abcdefghijklmnopqrstuvwxyz0123456789-".data

def numOfWildcardTests : Nat := 3
def maxQueryAttempts : Nat := 5

/-! ## String-set model

The external string-set collaborator is modelled by lists of strings with
membership semantics: `Union` appends, `Intersect` filters, `Len > 0` is
nonemptiness. -/

/-- The set of answer-data strings with surrounding dots trimmed, as built
inside `insertRecordData` and `intersectRecordData`. -/
def recordData (ans : List ExtractedAnswer) : List GoStr :=
  ans.map (fun a => trimChar '.' a.Data)

/-- `insertRecordData(set, ans)`: union the trimmed data strings of `ans`
into `set`. -/
def insertRecordData (set : List GoStr) (ans : List ExtractedAnswer) : List GoStr :=
  set ++ recordData ans

/-- `intersectRecordData(set, ans)`: intersect `set` with the trimmed data
strings of `ans`. -/
def intersectRecordData (set : List GoStr) (ans : List ExtractedAnswer) : List GoStr :=
  set.filter (fun x => hasStr (recordData ans) x)

/-! ## Wildcard state and matching -/

/-- The `wildcard` state: the detected flag and the canonical answer list
(the per-state mutex is irrelevant in this sequential model). -/
structure Wildcard where
  Detected : Bool
  Answers : List ExtractedAnswer
  deriving DecidableEq

/-- The wildcard registry `r.wildcards`, a map from subdomain suffix to
its state. -/
def Registry := GoStr → Option Wildcard

/-- `r.setWildcard(sub, w)`. -/
def setWildcard (reg : Registry) (sub : GoStr) (w : Wildcard) : Registry :=
  fun s => if s = sub then some w else reg s

/-- `(*wildcard).respMatchesWildcard(resp)`. -/
def respMatchesWildcard (w : Wildcard) (resp : Msg) : Bool :=
  if w.Detected then
    if w.Answers.length = 0 ∨ resp.Answer.length = 0 then w.Detected
    else
      let set := insertRecordData [] (ExtractAnswers resp)
      let set := intersectRecordData set w.Answers
      if set.length > 0 then w.Detected else false
  else false

/-! ## The probe (`wildcardTest`)

The network is abstracted by the list `rounds`: entry `i` is the
concatenation, over the three wildcard query types, of the answers
`makeQueryAttempts` returned in round `i` (an empty list when every
attempt failed). -/

/-- The running intersection set built across the probe rounds: round 0
is inserted into the empty set, later rounds are intersected. -/
def probeSet : List (List ExtractedAnswer) → List GoStr
  | [] => []
  | r :: rs => rs.foldl (fun s round => intersectRecordData s round) (insertRecordData [] r)

/-- The final loop of `wildcardTest`: walk the collected answers, trim
each data string, and keep the answer when its data is in the
intersection set and not already emitted. -/
def finalLoop (set : List GoStr) : List ExtractedAnswer → List GoStr → List ExtractedAnswer
  | [], _ => []
  | a :: rest, already =>
    let d := trimChar '.' a.Data
    if hasStr set d = true ∧ hasStr already d = false then
      { a with Data := d } :: finalLoop set rest (already ++ [d])
    else finalLoop set rest already

/-- `(*Resolvers).wildcardTest(ctx, sub)`, as a function of the probe
outcomes: returns the detected flag and the canonical answer list. -/
def wildcardTest (rounds : List (List ExtractedAnswer)) : Bool × List ExtractedAnswer :=
  let detected := rounds.any (fun r => ¬ r.isEmpty)
  let set := probeSet rounds
  let answers := rounds.flatten
  (detected, finalLoop set answers [])

/-! ## The cross-level IP heuristic (`testIPsAcrossLevels`) -/

/-- The loop body of `testIPsAcrossLevels`: for each remaining loop index
`i`, fetch the state of the suffix obtained by dropping the first `i`
labels; break at a missing state or empty answers; at `i = 1` seed the
record set, otherwise intersect. -/
def tiaLoop (reg : Registry) (labels : List GoStr) :
    List Nat → List GoStr → List GoStr
  | [], records => records
  | i :: rest, records =>
    match reg (joinChar '.' (labels.drop i)) with
    | none => records
    | some w =>
      if w.Answers.isEmpty then records
      else
        tiaLoop reg labels rest
          (if i = 1 then insertRecordData records w.Answers
           else intersectRecordData records w.Answers)

/-- `(*Resolvers).testIPsAcrossLevels(name, domain)`. -/
def testIPsAcrossLevels (reg : Registry) (name domain : GoStr) : Bool :=
  let base := (splitOnChar '.' domain).length
  let labels := splitOnChar '.' (toLowerStr name)
  if labels.length ≤ base ∨ labels.length - base < 3 then false
  else
    let l := labels.length - base
    let records := tiaLoop reg labels (List.range' 1 l) []
    records.length > 0

/-- A walk over an explicit list of suffix states with a first-level flag,
used to express the heuristic the way the spec phrases it: seed from the
first level walked, intersect with each later level, break at a missing
state or empty answers. -/
def levelsWalk (reg : Registry) :
    List GoStr → List GoStr → Bool → List GoStr
  | [], records, _ => records
  | s :: rest, records, first =>
    match reg s with
    | none => records
    | some w =>
      if w.Answers.isEmpty then records
      else
        levelsWalk reg rest
          (if first then insertRecordData records w.Answers
           else intersectRecordData records w.Answers) false

/-- Modelled from the claim's words (spec §4.6): walk the suffixes from
depth 1 (one label above the base) up to the full depth, seed the record
set from the innermost level, intersect with each outer level, stop at
the first missing or answerless level, and return nonemptiness; false
when the depth is below 3. -/
def specClaimTestIPs (reg : Registry) (name domain : GoStr) : Bool :=
  let base := (splitOnChar '.' domain).length
  let labels := splitOnChar '.' (toLowerStr name)
  let n := labels.length
  if n - base < 3 then false
  else
    let l := n - base
    let suffixes := (List.range' 1 l).map (fun d => joinChar '.' (labels.drop (n - base - d)))
    (levelsWalk reg suffixes [] true).length > 0

/-- The amended reading of the heuristic: walk the suffixes from one label
below the full question name inward, down to and including the base
domain, seed the record set from the first (outermost) walked level,
intersect with each inner level, stop at the first missing or answerless
level, and return nonemptiness; false when the depth is below 3. -/
def specAmendedTestIPs (reg : Registry) (name domain : GoStr) : Bool :=
  let base := (splitOnChar '.' domain).length
  let labels := splitOnChar '.' (toLowerStr name)
  let n := labels.length
  if n - base < 3 then false
  else
    let l := n - base
    let suffixes := ((List.range' base l).reverse).map (fun c => joinChar '.' (labels.drop (n - c)))
    (levelsWalk reg suffixes [] true).length > 0

/-! ## `WildcardDetected` -/

/-- The per-suffix walk of `WildcardDetected`: look the suffix up in the
registry, on a miss create and probe a fresh state (the `probe` parameter
abstracts `wildcardTest` over the network), then test the live response
against the state; stop at the first match.  Returns the verdict and the
updated registry. -/
def wildcardLoop (probe : GoStr → Wildcard) (resp : Msg) :
    List GoStr → Registry → Bool × Registry
  | [], reg => (false, reg)
  | sub :: rest, reg =>
    match reg sub with
    | some w =>
      if respMatchesWildcard w resp then (true, reg)
      else wildcardLoop probe resp rest reg
    | none =>
      let w := probe sub
      let reg' := setWildcard reg sub w
      if respMatchesWildcard w resp then (true, reg')
      else wildcardLoop probe resp rest reg'

/-- The tail of `WildcardDetected` shared by the embedding and its spec
rephrasings: run the suffix walk, and fall back to the cross-level
heuristic (with the registry as updated by the walk) when no level
matched. -/
def wildcardWalk (probe : GoStr → Wildcard) (resp : Msg) (reg : Registry)
    (subs : List GoStr) (name domain : GoStr) : Bool :=
  match wildcardLoop probe resp subs reg with
  | (true, _) => true
  | (false, reg') => testIPsAcrossLevels reg' name domain

/-- `(*Resolvers).WildcardDetected(ctx, resp, domain)`.  `good` models the
`goodDetector()` guard, `reg` the current registry, and `probe` the
outcome of `wildcardTest` for each suffix it may be asked to probe. -/
def WildcardDetected (good : Bool) (reg : Registry) (probe : GoStr → Wildcard)
    (resp : Msg) (domain : GoStr) : Bool :=
  if good = false then false
  else
    let name := toLowerStr (RemoveLastDot (question0 resp).Name)
    let domain := toLowerStr (RemoveLastDot domain)
    let base := (splitOnChar '.' domain).length
    let labels0 := splitOnChar '.' name
    let labels := if labels0.length > base then labels0.tail else labels0
    let idxs :=
      if labels.length < base then ([] : List Nat)
      else (List.range (labels.length - base + 1)).reverse
    let subs := idxs.map (fun i => joinChar '.' (labels.drop i))
    wildcardWalk probe resp reg subs name domain

/-- Modelled from the claim's words (spec §4.5 step 3): the suffixes
checked run, innermost-first, from the base domain's label count up to
one label short of the full question name. -/
def specClaimWildcardDetected (good : Bool) (reg : Registry) (probe : GoStr → Wildcard)
    (resp : Msg) (domain : GoStr) : Bool :=
  if good = false then false
  else
    let name := toLowerStr (RemoveLastDot (question0 resp).Name)
    let domain := toLowerStr (RemoveLastDot domain)
    let base := (splitOnChar '.' domain).length
    let labels0 := splitOnChar '.' name
    let n := labels0.length
    let subs := (List.range' base (n - base)).map (fun c => joinChar '.' (labels0.drop (n - c)))
    wildcardWalk probe resp reg subs name domain

/-- The amended reading: as the claim states it when the question name has
more labels than the base domain; when the label counts are equal the
single suffix checked is the full question name itself; when the name has
fewer labels no suffix is checked. -/
def specAmendedWildcardDetected (good : Bool) (reg : Registry) (probe : GoStr → Wildcard)
    (resp : Msg) (domain : GoStr) : Bool :=
  if good = false then false
  else
    let name := toLowerStr (RemoveLastDot (question0 resp).Name)
    let domain := toLowerStr (RemoveLastDot domain)
    let base := (splitOnChar '.' domain).length
    let labels0 := splitOnChar '.' name
    let n := labels0.length
    let subs :=
      if n = base then [joinChar '.' labels0]
      else (List.range' base (n - base)).map (fun c => joinChar '.' (labels0.drop (n - c)))
    wildcardWalk probe resp reg subs name domain

/-! ## `UnlikelyName`

The process-wide random source is abstracted by explicit parameters:
`perm` is the shuffled LDH rune slice produced by `rand.Shuffle`,
`lenChoice` the value drawn by `rand.Intn`, and `sels` the stream of
`rand.Int()` draws used by the character-selection loop. -/

/-- The argument the code passes to `rand.Intn` when drawing the label
length: `(l - MinLabelLen) + 1` where `l = MaxDNSNameLen - (len(sub)+1)`
clamped into `[MinLabelLen, MaxLabelLen]` (Go `int` arithmetic, hence the
detour through `Int`). -/
def labelLenRange (sub : GoStr) : Nat :=
  let l : Int := (MaxDNSNameLen : Int) - ((sub.length : Int) + 1)
  let l := if l > (MaxLabelLen : Int) then (MaxLabelLen : Int)
           else if l < (MinLabelLen : Int) then (MinLabelLen : Int) else l
  ((l - (MinLabelLen : Int)) + 1).toNat

/-- The raw label built by the selection loop: position `i` holds
`ldh[sel]` with `sel := rand.Int() % (ldhLen - 1)`. -/
def rawLabel (perm : List Char) (sels : List Nat) (l : Nat) : GoStr :=
  (List.range l).map (fun i => perm.getD ((sels.getD i 0) % (perm.length - 1)) 'a')

/-- `UnlikelyName(sub)` as a function of the random draws: build a label
of length `MinLabelLen + lenChoice`, trim leading and trailing dashes,
and return the empty string or the label joined to `sub` with a dot. -/
def UnlikelyName (sub : GoStr) (perm : List Char) (lenChoice : Nat) (sels : List Nat) : GoStr :=
  let l := MinLabelLen + lenChoice
  let newlabel := trimChar '-' (rawLabel perm sels l)
  if newlabel = [] then [] else newlabel ++ '.' :: sub

/-! ## Response codes and results (base.go) -/

def RcodeSuccess : Nat := 0
def RcodeServerFailure : Nat := 2
def RcodeNotImplemented : Nat := 4
def RcodeRefused : Nat := 5

/-- Modelled from the spec: the library-level `Timeout` response code;
its defining file is not under src/. -/
def TimeoutRcode : Nat := 50

/-- Modelled from the spec: the library-level `ResolverError` response
code; its defining file is not under src/. -/
def ResolverErrRcode : Nat := 51

/-- Modelled from the spec: `RetryCodes` is a design-level set including
`ServerFailure`, `NotImplemented`, `Refused` and the `Timeout`-equivalent
code; its defining file is not under src/. -/
def RetryCodes : List Nat := [RcodeServerFailure, RcodeNotImplemented, RcodeRefused, TimeoutRcode]

/-- Modelled from the spec (§7): every error carries a human-readable
description and a DNS-style response code. -/
structure ResolveError where
  Err : String
  Rcode : Nat
  deriving DecidableEq

/-- The `resolveResult` delivered on a request's result channel. -/
structure resolveResult where
  Msg : Option Msg
  Again : Bool
  Err : Option ResolveError
  deriving DecidableEq

/-- Modelled from the spec: `makeResolveResult(msg, again, err, rcode)`
packages a result whose error holds the description and the response
code; its defining file is not under src/. -/
def makeResolveResult (m : Option Msg) (again : Bool) (err : String) (rcode : Nat) : resolveResult :=
  ⟨m, again, some ⟨err, rcode⟩⟩

/-- The response code carried by a result's error, when present. -/
def errRcode (r : resolveResult) : Option Nat := r.Err.map (fun e => e.Rcode)

/-! ## Read handling (`processMessage`, `tcpExchange`) -/

/-- What `processMessage` does with a received message: complete the
request with a result, or hand it to the TCP fallback goroutine. -/
inductive ReadAction where
  | complete (res : resolveResult)
  | spawnTCP
  deriving DecidableEq

/-- The scan `for _, code := range RetryCodes` that sets `again`. -/
def retryScan : List Nat → Nat → Bool
  | [], _ => false
  | c :: cs, rc => if rc = c then true else retryScan cs rc

/-- `(*baseResolver).processMessage(m, req)`. -/
def processMessage (m : Msg) : ReadAction :=
  if m.Rcode ≠ RcodeSuccess then
    let again := retryScan RetryCodes m.Rcode
    .complete (makeResolveResult (some m) again "query returned a DNS error" m.Rcode)
  else if m.Truncated then .spawnTCP
  else .complete ⟨some m, false, none⟩

/-- The shape of the `dns.Client` used by the TCP fallback: transport and
timeout in nanoseconds. -/
structure DNSClient where
  Net : String
  TimeoutNs : Int
  deriving DecidableEq

/-- The client `tcpExchange` constructs: `Net: "tcp"`, `Timeout: time.Minute`. -/
def tcpExchangeClient : DNSClient := ⟨"tcp", 60 * 1000000000⟩

/-- `(*baseResolver).tcpExchange(req)`, as a function of the exchange
outcome. -/
def tcpExchange (outcome : Except String Msg) : resolveResult :=
  match outcome with
  | .error _ => makeResolveResult none true "failed to perform the exchange via TCP" ResolverErrRcode
  | .ok m => ⟨some m, false, none⟩

/-! ## Dispatch, cancellation and timeout completions -/

/-- `(*baseResolver).writeMessage(req)` as a function of its two fallible
socket operations: `some r` when a failure removes the request and
completes it with `r`, `none` when the write succeeds and the request
stays in flight with its timestamp updated. -/
def writeMessage (deadlineErr : Option String) (writeErr : Option String) : Option resolveResult :=
  match deadlineErr with
  | some _ => some (makeResolveResult none true "failed to set the write deadline" TimeoutRcode)
  | none =>
    match writeErr with
    | some _ => some (makeResolveResult none true "failed to write the query msg" TimeoutRcode)
    | none => none

/-- The result `queueQuery` hands back from its final select: when the
caller's context wins, a synthesised Timeout; otherwise whatever arrived
on the result channel. -/
def queueQuerySelect (ctxCancelledFirst : Bool) (delivered : resolveResult) : resolveResult :=
  if ctxCancelledFirst then
    makeResolveResult none false "The request context was cancelled" TimeoutRcode
  else delivered

/-- The completion the timeout sweep gives each expired request. -/
def timeoutSweepResult : resolveResult :=
  makeResolveResult none true "query timed out" TimeoutRcode

/-! ## The receive loop's sampling classification and `calcNewRate` -/

def maxDelayBetweenSamples : Int := 250 * 1000000
def minSamplingTime : Int := 5 * 1000000000
def minSampleSetSize : Nat := 5
def timeSecond : Int := 1000000000

/-- What the receive loop does with one matched response. -/
inductive SampleAction where
  | add
  | recalc
  | skip
  deriving DecidableEq

/-- The `if / else if / else if` chain in the receive loop that decides
whether the arrival time joins the sample buffer or triggers a rate
recomputation.  `bufLen` is `len(responseTimes)` and `elapsed` is
`rtime.Sub(last)` in nanoseconds. -/
def responsesStep (collectIsZero tsAfterCollect tsBeforeStopped : Bool)
    (bufLen : Nat) (elapsed : Int) : SampleAction :=
  if collectIsZero = false ∧ tsAfterCollect = true then .add
  else if collectIsZero = true ∧ tsBeforeStopped = true then .add
  else if bufLen > minSampleSetSize ∧ elapsed > minSamplingTime then .recalc
  else .skip

/-- The inner accumulation of `calcNewRate`'s loop once `last` is bound. -/
def sumGapsFrom (last : Int) : List Int → Int
  | [] => 0
  | t :: ts => (t - last) + sumGapsFrom t ts

/-- `total` as accumulated by
`for i, t := range times { if i > 0 { total += t.Sub(last) }; last = t }`. -/
def sumGaps : List Int → Int
  | [] => 0
  | t :: ts => sumGapsFrom t ts

/-- The outcome of one `calcNewRate` call. -/
inductive RateOutcome where
  | noop
  | fault
  | setRate (r : Int)
  deriving DecidableEq

/-- `(*baseResolver).calcNewRate(times)` over nanosecond timestamps.
Go `int64` division truncates toward zero (`Int.tdiv`), and
`time.Duration(float64(avg) * 0.25)` equals `Int.tdiv avg 4` because the
float64 product is exact and converts back by truncation for the
magnitudes a clamped average can take.  `time.Second / avg` with a zero
`avg` is an integer division by zero, a Go runtime fault, modelled by
`RateOutcome.fault`. -/
def calcNewRate (perSec : Int) (times : List Int) : RateOutcome :=
  if times.length < minSampleSetSize then .noop
  else
    let total := sumGaps times
    let avg := Int.tdiv total ((times.length : Int) - 1)
    let avg := if avg > timeSecond then timeSecond else avg
    let avg := avg - Int.tdiv avg 4
    if avg = 0 then .fault
    else
      let persec := Int.tdiv timeSecond avg
      .setRate (if persec ≤ 1 then perSec else persec)

/-- The divisor `time.Second` is divided by: the clamped, 25%-shaved
average gap. -/
def rateDivisor (times : List Int) : Int :=
  let total := sumGaps times
  let avg := Int.tdiv total ((times.length : Int) - 1)
  let avg := if avg > timeSecond then timeSecond else avg
  avg - Int.tdiv avg 4

/-- The rate the claim's formula prescribes for C3:
`floor(1 s / (0.75 · min(avg, 1 s)))` with `avg` the exact rational mean
inter-arrival gap. -/
def specClaimRate (times : List Int) : Int :=
  let avg : ℚ := (sumGaps times : ℚ) / ((times.length : ℚ) - 1)
  let m : ℚ := min avg ((timeSecond : ℚ))
  ⌊(timeSecond : ℚ) / ((3 / 4) * m)⌋

/-! ## Concrete fixtures used by the closed theorems -/

/-- A registry for exercising the cross-level heuristic on
`a.b.c.domain.com` under `domain.com`: every strict suffix above the base
holds the data `192.168.1.64`, the base domain's state holds different
data, and the full name's state again holds `192.168.1.64`. -/
def c8Registry : Registry := fun s =>
  if s = "b.c.domain.com".data then
    some ⟨true, [⟨"b.c.domain.com".data, 1, "192.168.1.64".data⟩]⟩
  else if s = "c.domain.com".data then
    some ⟨true, [⟨"c.domain.com".data, 1, "192.168.1.64".data⟩]⟩
  else if s = "domain.com".data then
    some ⟨true, [⟨"domain.com".data, 1, "10.0.0.1".data⟩]⟩
  else if s = "a.b.c.domain.com".data then
    some ⟨true, [⟨"a.b.c.domain.com".data, 1, "192.168.1.64".data⟩]⟩
  else none

/-- A registry holding a detected, answerless wildcard state for the base
domain itself. -/
def c1Registry : Registry := fun s =>
  if s = "domain.com".data then some ⟨true, []⟩ else none

/-- A probe that never detects anything, for walks that only hit registry
entries. -/
def nullProbe : GoStr → Wildcard := fun _ => ⟨false, []⟩

/-- A response for the question `domain.com.` carrying one A answer. -/
def c1Resp : Msg :=
  ⟨7, [⟨"domain.com.".data, 1⟩], 0, false, [⟨"domain.com".data, 1, "192.168.1.14".data⟩]⟩

/-- Three concrete probe rounds: the data `1.2.3.4` recurs in every round
(once with a trailing dot), `9.9.9.9` only in the last. -/
def c7Rounds : List (List ExtractedAnswer) :=
  [[⟨"w.x".data, 1, "1.2.3.4.".data⟩],
   [⟨"w.x".data, 1, "1.2.3.4".data⟩],
   [⟨"w.x".data, 1, "1.2.3.4".data⟩, ⟨"w.x".data, 28, "9.9.9.9".data⟩]]

/-! ## Supporting lemmas -/

theorem hasStr_iff_mem (s : List GoStr) (x : GoStr) : hasStr s x = true ↔ x ∈ s := by
  induction s with
  | nil => simp [hasStr]
  | cons y ys ih =>
    by_cases h : x = y <;> simp [hasStr, h, ih]

theorem mem_recordData (ans : List ExtractedAnswer) (x : GoStr) :
    x ∈ recordData ans ↔ ∃ b ∈ ans, trimChar '.' b.Data = x := by
  simp [recordData]

theorem mem_foldl_intersect (rs : List (List ExtractedAnswer)) :
    ∀ (s : List GoStr) (x : GoStr),
      x ∈ rs.foldl (fun s round => intersectRecordData s round) s ↔
        x ∈ s ∧ ∀ r ∈ rs, x ∈ recordData r := by
  induction rs with
  | nil => intro s x; simp
  | cons r rs ih =>
    intro s x
    rw [List.foldl_cons, ih]
    simp only [intersectRecordData, List.mem_filter, hasStr_iff_mem, List.mem_cons]
    constructor
    · rintro ⟨⟨hs, hr⟩, hrest⟩
      exact ⟨hs, fun r' hr' => hr'.elim (fun e => e ▸ hr) (hrest r')⟩
    · rintro ⟨hs, hall⟩
      exact ⟨⟨hs, hall r (Or.inl rfl)⟩, fun r' hr' => hall r' (Or.inr hr')⟩

theorem mem_probeSet (r : List ExtractedAnswer) (rs : List (List ExtractedAnswer)) (x : GoStr) :
    x ∈ probeSet (r :: rs) ↔ ∀ r' ∈ r :: rs, x ∈ recordData r' := by
  unfold probeSet
  rw [mem_foldl_intersect]
  simp only [insertRecordData, List.nil_append, List.mem_cons]
  constructor
  · rintro ⟨hr, hrest⟩
    exact fun r' hr' => hr'.elim (fun e => e ▸ hr) (hrest r')
  · intro hall
    exact ⟨hall r (Or.inl rfl), fun r' hr' => hall r' (Or.inr hr')⟩

theorem mem_finalLoop (set : List GoStr) :
    ∀ (answers : List ExtractedAnswer) (already : List GoStr) (a : ExtractedAnswer),
      a ∈ finalLoop set answers already →
        a.Data ∈ set ∧ a.Data ∉ already ∧
        ∃ b ∈ answers, a = { b with Data := trimChar '.' b.Data } := by
  intro answers
  induction answers with
  | nil => intro already a h; simp [finalLoop] at h
  | cons b rest ih =>
    intro already a h
    simp only [finalLoop] at h
    by_cases hc : hasStr set (trimChar '.' b.Data) = true ∧ hasStr already (trimChar '.' b.Data) = false
    · rw [if_pos hc] at h
      rcases List.mem_cons.mp h with h1 | h1
      · subst h1
        refine ⟨(hasStr_iff_mem _ _).mp hc.1, ?_, ⟨b, List.mem_cons_self _ _, rfl⟩⟩
        intro hmem
        exact absurd ((hasStr_iff_mem _ _).mpr hmem) (by simp [hc.2])
      · rcases ih _ _ h1 with ⟨hs, hna, b', hb', he⟩
        exact ⟨hs, fun hmem => hna (List.mem_append_left _ hmem),
          ⟨b', List.mem_cons_of_mem _ hb', he⟩⟩
    · rw [if_neg hc] at h
      rcases ih _ _ h with ⟨hs, hna, b', hb', he⟩
      exact ⟨hs, hna, b', List.mem_cons_of_mem _ hb', he⟩

theorem finalLoop_data_nodup (set : List GoStr) :
    ∀ (answers : List ExtractedAnswer) (already : List GoStr),
      ((finalLoop set answers already).map ExtractedAnswer.Data).Nodup := by
  intro answers
  induction answers with
  | nil => intro already; simp [finalLoop]
  | cons b rest ih =>
    intro already
    simp only [finalLoop]
    by_cases hc : hasStr set (trimChar '.' b.Data) = true ∧ hasStr already (trimChar '.' b.Data) = false
    · rw [if_pos hc]
      simp only [List.map_cons, List.nodup_cons]
      refine ⟨?_, ih _⟩
      intro hmem
      rcases List.mem_map.mp hmem with ⟨a, ha, haData⟩
      rcases mem_finalLoop set rest (already ++ [trimChar '.' b.Data]) a ha with ⟨_, hna, _⟩
      exact hna (haData ▸ List.mem_append_right _ (List.mem_singleton_self _))
    · rw [if_neg hc]
      exact ih _

/-- The second component of `wildcardTest`, unfolded. -/
theorem wildcardTest_snd (rounds : List (List ExtractedAnswer)) :
    (wildcardTest rounds).2 = finalLoop (probeSet rounds) rounds.flatten [] := rfl

/-- The index-based loop of `testIPsAcrossLevels` agrees with the walk
over the corresponding suffix list: for loop indices starting at `k ≥ 1`,
the `i = 1` test of the loop is precisely the first-level flag of the
walk. -/
theorem tiaLoop_eq_levelsWalk (reg : Registry) (labels : List GoStr) :
    ∀ (len k : Nat), 1 ≤ k → ∀ (records : List GoStr),
      tiaLoop reg labels (List.range' k len) records =
        levelsWalk reg ((List.range' k len).map (fun i => joinChar '.' (labels.drop i)))
          records (decide (k = 1)) := by
  intro len
  induction len with
  | zero => intro k hk records; rfl
  | succ len ih =>
    intro k hk records
    rw [List.range'_succ, List.map_cons]
    simp only [tiaLoop, levelsWalk]
    cases hreg : reg (joinChar '.' (labels.drop k)) with
    | none => simp [hreg]
    | some w =>
      simp only [hreg]
      by_cases hA : w.Answers.isEmpty = true
      · simp [hA]
      · have hflag : decide (k + 1 = 1) = false := by
          simp only [decide_eq_false_iff_not]
          omega
        simp only [hA, if_false, Bool.false_eq_true, if_neg, decide_eq_true_eq]
        rw [ih (k + 1) (by omega), hflag]

/-- Reversing the outward range and re-indexing through `n - c` yields
the plain inward range of label-drop counts. -/
theorem suffixes_reverse_eq {α : Type} (f g : Nat → α) (base l n : Nat) (hn : n = base + l)
    (hfg : ∀ c, g c = f (n - c)) :
    ((List.range' base l).reverse).map g = (List.range' 1 l).map f := by
  subst hn
  apply List.ext_getElem
  · simp
  · intro i h1 h2
    simp only [List.getElem_map, List.getElem_reverse, List.getElem_range',
      List.length_range', hfg]
    congr 1
    simp only [List.length_map, List.length_reverse, List.length_range'] at h1 h2
    omega

/-- The code's countdown index list, mapped through drop counts shifted
by the dropped leading label, equals the claim's ascending label-count
list mapped through `n - c`. -/
theorem range_reverse_eq {α : Type} (f g k : Nat → α) (base l n : Nat) (hn : n = base + l)
    (hk : ∀ i, k i = f (i + 1)) (hg : ∀ c, g c = f (n - c)) :
    ((List.range l).reverse).map k = (List.range' base l).map g := by
  subst hn
  apply List.ext_getElem
  · simp
  · intro i h1 h2
    simp only [List.getElem_map, List.getElem_reverse, List.getElem_range, List.getElem_range',
      List.length_range, hk, hg]
    congr 1
    simp only [List.length_map, List.length_reverse, List.length_range, List.length_range'] at h1 h2
    omega

theorem head?_dropWhile_ne (p : Char → Bool) :
    ∀ (l : GoStr) (x : Char), (l.dropWhile p).head? = some x → p x = false := by
  intro l
  induction l with
  | nil => intro x h; simp [List.dropWhile] at h
  | cons a t ih =>
    intro x h
    rw [List.dropWhile_cons] at h
    by_cases hp : p a = true
    · rw [if_pos hp] at h; exact ih x h
    · rw [if_neg hp] at h
      simp only [List.head?_cons, Option.some.injEq] at h
      cases hpa : p x with
      | false => rfl
      | true => rw [← h] at hpa; exact absurd hpa hp

theorem getLast?_dropWhile (p : Char → Bool) :
    ∀ l : GoStr, l.dropWhile p ≠ [] → (l.dropWhile p).getLast? = l.getLast? := by
  intro l
  induction l with
  | nil => intro h; simp [List.dropWhile] at h
  | cons a t ih =>
    intro h
    rw [List.dropWhile_cons] at h ⊢
    by_cases hp : p a = true
    · rw [if_pos hp] at h ⊢
      rw [ih h]
      have ht : t ≠ [] := by
        intro he; subst he; simp [List.dropWhile] at h
      cases t with
      | nil => exact absurd rfl ht
      | cons b t2 => rw [List.getLast?_cons_cons]
    · rw [if_neg hp]

theorem mem_trimChar (c : Char) (s : GoStr) : ∀ x ∈ trimChar c s, x ∈ s := by
  intro x hx
  unfold trimChar at hx
  rw [List.mem_reverse] at hx
  have h2 : x ∈ (List.dropWhile (· = c) s).reverse := (List.dropWhile_sublist _).subset hx
  rw [List.mem_reverse] at h2
  exact (List.dropWhile_sublist _).subset h2

theorem trimChar_head_ne (c : Char) (s : GoStr) (x : Char) :
    (trimChar c s).head? = some x → x ≠ c := by
  intro h
  unfold trimChar at h
  rw [List.head?_reverse] at h
  have hne : List.dropWhile (· = c) (List.dropWhile (· = c) s).reverse ≠ [] := by
    intro he; rw [he] at h; simp at h
  rw [getLast?_dropWhile _ _ hne, List.getLast?_reverse] at h
  have hf := head?_dropWhile_ne (· = c) s x h
  intro hxc
  rw [hxc] at hf
  simp at hf

theorem trimChar_getLast_ne (c : Char) (s : GoStr) (x : Char) :
    (trimChar c s).getLast? = some x → x ≠ c := by
  intro h
  unfold trimChar at h
  rw [List.getLast?_reverse] at h
  have hf := head?_dropWhile_ne (· = c) _ x h
  intro hxc
  rw [hxc] at hf
  simp at hf

/-- Every character the selection loop can produce lies among the first
`ldhLen - 1` characters of the shuffled alphabet: the modulus is
`ldhLen - 1`, not `ldhLen`. -/
theorem rawLabel_mem_take (perm : List Char) (h37 : perm.length = 37)
    (sels : List Nat) (l : Nat) :
    ∀ c ∈ rawLabel perm sels l, c ∈ perm.take (perm.length - 1) := by
  intro c hc
  rcases List.mem_map.mp hc with ⟨i, _hi, hsel⟩
  subst hsel
  have hidx : (sels.getD i 0) % (perm.length - 1) < perm.length - 1 :=
    Nat.mod_lt _ (by omega)
  have hlt : (sels.getD i 0) % (perm.length - 1) < perm.length := by omega
  rw [List.getD_eq_getElem perm 'a' hlt]
  have h3 : (sels.getD i 0) % (perm.length - 1) < (perm.take (perm.length - 1)).length := by
    simp only [List.length_take]
    omega
  have he : (perm.take (perm.length - 1))[(sels.getD i 0) % (perm.length - 1)] =
      perm[(sels.getD i 0) % (perm.length - 1)] := List.getElem_take ..
  exact he ▸ List.getElem_mem h3

theorem retryScan_iff_mem (cs : List Nat) (rc : Nat) : retryScan cs rc = true ↔ rc ∈ cs := by
  induction cs with
  | nil => simp [retryScan]
  | cons c cs ih => by_cases h : rc = c <;> simp [retryScan, h, ih]

theorem sumGapsFrom_telescope (ts : List Int) :
    ∀ last : Int, sumGapsFrom last ts = ts.getLastD last - last := by
  induction ts with
  | nil => intro last; simp [sumGapsFrom]
  | cons t ts ih =>
    intro last
    simp only [sumGapsFrom, List.getLastD_cons, ih t]
    ring

theorem sumGaps_telescope (times : List Int) :
    sumGaps times = times.getLastD 0 - times.headD 0 := by
  cases times with
  | nil => simp [sumGaps]
  | cons t ts =>
    show sumGapsFrom t ts = (t :: ts).getLastD 0 - t
    rw [sumGapsFrom_telescope, List.getLastD_cons]

theorem length_filter_pos_iff {α : Type} (p : α → Bool) (l : List α) :
    0 < (l.filter p).length ↔ ∃ x ∈ l, p x = true := by
  rw [List.length_pos, Ne, List.filter_eq_nil_iff]
  push_neg
  simp

/-! ## Claim C6 -/

/-- C6: the wildcard match predicate returns no match when the state's
detected flag is false; a match when detected is true and either the
canonical answer list or the live answer section is empty; and otherwise
a match iff the trimmed data strings of the live response intersect the
state's canonical data. -/
theorem respMatchesWildcard_spec (w : Wildcard) (resp : Msg) :
    respMatchesWildcard w resp =
      (w.Detected && (w.Answers.isEmpty || resp.Answer.isEmpty ||
        decide (∃ d ∈ recordData (ExtractAnswers resp), d ∈ recordData w.Answers))) := by
  unfold respMatchesWildcard
  cases hD : w.Detected
  · simp
  · simp only [Bool.true_and, if_true]
    by_cases hA : w.Answers.length = 0 ∨ resp.Answer.length = 0
    · have hE : w.Answers.isEmpty = true ∨ resp.Answer.isEmpty = true := by
        rcases hA with h | h
        · exact Or.inl (List.isEmpty_iff.mpr (List.length_eq_zero.mp h))
        · exact Or.inr (List.isEmpty_iff.mpr (List.length_eq_zero.mp h))
      rcases hE with h | h <;> simp [hA, h, List.isEmpty_iff.mp h]
    · have h1 : w.Answers.isEmpty = false := by
        rcases not_or.mp hA with ⟨h, _⟩
        cases hw : w.Answers.isEmpty with
        | false => rfl
        | true => exact absurd (by simp [List.isEmpty_iff.mp hw]) h
      have h2 : resp.Answer.isEmpty = false := by
        rcases not_or.mp hA with ⟨_, h⟩
        cases hw : resp.Answer.isEmpty with
        | false => rfl
        | true => exact absurd (by simp [List.isEmpty_iff.mp hw]) h
      have hset : insertRecordData [] (ExtractAnswers resp) = recordData (ExtractAnswers resp) := by
        simp [insertRecordData]
      simp only [if_neg hA, hset, intersectRecordData, h1, h2, Bool.false_or]
      by_cases hI : ∃ d ∈ recordData (ExtractAnswers resp), d ∈ recordData w.Answers
      · have : 0 < ((recordData (ExtractAnswers resp)).filter
            (fun x => hasStr (recordData w.Answers) x)).length := by
          rw [length_filter_pos_iff]
          rcases hI with ⟨d, hd1, hd2⟩
          exact ⟨d, hd1, (hasStr_iff_mem _ _).mpr hd2⟩
        simp [this, hI]
      · have : ¬ 0 < ((recordData (ExtractAnswers resp)).filter
            (fun x => hasStr (recordData w.Answers) x)).length := by
          rw [length_filter_pos_iff]
          rintro ⟨d, hd1, hd2⟩
          exact hI ⟨d, hd1, (hasStr_iff_mem _ _).mp hd2⟩
        simp [this, hI]

/-! ## Claim C2 -/

/-- C2: for every received response, a non-success rcode completes the
request with the upstream code preserved and the retryable flag set iff
the code is in `RetryCodes`; a successful truncated response is handed to
the one-shot TCP fallback, whose client uses TCP with a one-minute
timeout and whose error case completes the request as a retryable
`ResolverError`, the success case delivering the TCP message with no
error; otherwise the request completes with the UDP response and no
error. -/
theorem processMessage_classification (m : Msg) (outcome : Except String Msg) :
    (m.Rcode ≠ RcodeSuccess →
      ∃ res, processMessage m = ReadAction.complete res ∧ res.Msg = some m ∧
        errRcode res = some m.Rcode ∧ (res.Again = true ↔ m.Rcode ∈ RetryCodes)) ∧
    (m.Rcode = RcodeSuccess → m.Truncated = true →
      processMessage m = ReadAction.spawnTCP ∧
      tcpExchangeClient.Net = "tcp" ∧ tcpExchangeClient.TimeoutNs = 60 * timeSecond ∧
      (∀ tm, outcome = Except.ok tm → tcpExchange outcome = ⟨some tm, false, none⟩) ∧
      (∀ e, outcome = Except.error e → (tcpExchange outcome).Again = true ∧
        errRcode (tcpExchange outcome) = some ResolverErrRcode ∧
        (tcpExchange outcome).Msg = none)) ∧
    (m.Rcode = RcodeSuccess → m.Truncated = false →
      processMessage m = ReadAction.complete ⟨some m, false, none⟩) := by
  refine ⟨?_, ?_, ?_⟩
  · intro h
    refine ⟨makeResolveResult (some m) (retryScan RetryCodes m.Rcode)
      "query returned a DNS error" m.Rcode, ?_, rfl, rfl, ?_⟩
    · simp [processMessage, h]
    · exact retryScan_iff_mem _ _
  · intro hrc htr
    refine ⟨by simp [processMessage, hrc, htr], rfl, rfl, ?_, ?_⟩
    · intro tm hout; subst hout; rfl
    · intro e hout; subst hout; exact ⟨rfl, rfl, rfl⟩
  · intro hrc htr
    simp [processMessage, hrc, htr]

/-- Witness for C2: a `ServerFailure` response is completed with its code
preserved and the retryable flag set. -/
theorem processMessage_classification_witness :
    ∃ res, processMessage ⟨1, [], 2, false, []⟩ = ReadAction.complete res ∧
      res.Msg = some ⟨1, [], 2, false, []⟩ ∧ errRcode res = some 2 ∧
      (res.Again = true ↔ (2 : Nat) ∈ RetryCodes) :=
  (processMessage_classification ⟨1, [], 2, false, []⟩
    (Except.ok ⟨1, [], 0, false, []⟩)).1 (by decide)

/-! ## Claim C4 -/

/-- C4 counterexample: the completion synthesised when the caller's
context is cancelled carries the `Timeout` code but has the retryable
flag cleared, contradicting the claim that every `Timeout`-classified
failure is retryable. -/
theorem queueQueryCancel_not_retryable :
    errRcode (queueQuerySelect true ⟨none, false, none⟩) = some TimeoutRcode ∧
    (queueQuerySelect true ⟨none, false, none⟩).Again = false := by
  exact ⟨rfl, rfl⟩

/-- C4 amended: write-deadline and write failures in the dispatch path
and exchange-table expiry complete the request with the `Timeout` code
and the retryable flag set; context cancellation completes it with the
`Timeout` code but with the retryable flag cleared. -/
theorem timeoutClass_completions (d w : Option String) :
    (∀ res, writeMessage d w = some res →
      res.Again = true ∧ errRcode res = some TimeoutRcode) ∧
    (timeoutSweepResult.Again = true ∧ errRcode timeoutSweepResult = some TimeoutRcode) ∧
    (∀ r, (queueQuerySelect true r).Again = false ∧
      errRcode (queueQuerySelect true r) = some TimeoutRcode) := by
  refine ⟨?_, ⟨rfl, rfl⟩, fun r => ⟨rfl, rfl⟩⟩
  intro res hres
  cases d with
  | some e => cases hres; exact ⟨rfl, rfl⟩
  | none =>
    cases w with
    | some e => cases hres; exact ⟨rfl, rfl⟩
    | none => cases hres

/-- Witness for C4 (amended): a write-deadline failure completes with a
retryable `Timeout`. -/
theorem timeoutClass_completions_witness :
    (makeResolveResult none true "failed to set the write deadline" TimeoutRcode).Again = true ∧
    errRcode (makeResolveResult none true "failed to set the write deadline" TimeoutRcode) =
      some TimeoutRcode :=
  (timeoutClass_completions (some "boom") none).1 _ rfl

/-! ## Claim C5 -/

/-- C5 counterexample: with exactly `minSampleSetSize` buffered samples
and far more than `minSamplingTime` elapsed, and neither sampling
condition selecting the response, the receive loop does not trigger a
rate recomputation — the code requires strictly more than
`minSampleSetSize` entries. -/
theorem responsesStep_no_recalc_at_five :
    minSampleSetSize ≤ 5 ∧ (6000000000 : Int) > minSamplingTime ∧
    responsesStep false false false 5 6000000000 = SampleAction.skip ∧
    responsesStep false false false 5 6000000000 ≠ SampleAction.recalc := by
  refine ⟨by decide, by decide, rfl, by decide⟩

/-- C5 amended: the receive loop triggers a rate recomputation exactly
when neither sample-collection condition applies, the buffer holds
strictly more than `minSampleSetSize` entries, and more than
`minSamplingTime` has elapsed since the last rate update. -/
theorem responsesStep_recalc_iff (c a s : Bool) (n : Nat) (e : Int) :
    responsesStep c a s n e = SampleAction.recalc ↔
      (¬ (c = false ∧ a = true) ∧ ¬ (c = true ∧ s = true) ∧
        n > minSampleSetSize ∧ e > minSamplingTime) := by
  by_cases h : n > minSampleSetSize ∧ e > minSamplingTime <;>
    cases c <;> cases a <;> cases s <;> simp_all [responsesStep]

/-! ## Claim C10 -/

/-- C10 (code bug): five equal timestamps give a zero clamped-and-shaved
average, so `time.Second / avg` is an integer division by zero — a Go
runtime fault — contradicting the claimed totality of `calcNewRate`. -/
theorem calcNewRate_divzero_on_equal_times :
    rateDivisor [100, 100, 100, 100, 100] = 0 ∧
    calcNewRate 50 [100, 100, 100, 100, 100] = RateOutcome.fault := by
  exact ⟨rfl, rfl⟩

/-! ## Claim C3 -/

/-- C3 counterexample: for the sample timestamps `[0,3,6,9,12]` (mean
inter-arrival gap 3 ns) the code installs `⌊1e9 / 3⌋ = 333333333`
queries/sec, while the claimed formula `⌊1 s / (0.75 · min(avg, 1 s))⌋`
gives `⌊1e9 / 2.25⌋ = 444444444`. -/
theorem calcNewRate_not_specClaimRate :
    calcNewRate 100 [0, 3, 6, 9, 12] = RateOutcome.setRate 333333333 ∧
    specClaimRate [0, 3, 6, 9, 12] = 444444444 ∧
    RateOutcome.setRate 333333333 ≠ RateOutcome.setRate (444444444 : Int) := by
  refine ⟨by decide, ?_, by decide⟩
  have h1 : ((sumGaps [0, 3, 6, 9, 12] : Int) : ℚ) = 12 := by
    norm_num [sumGaps, sumGapsFrom]
  unfold specClaimRate
  simp only [h1]
  rw [Int.floor_eq_iff]
  constructor <;> norm_num [timeSecond, min_def]

/-- C3 amended: with at least `minSampleSetSize` samples, `calcNewRate`
installs `trunc(1 s / (m - trunc(m / 4)))` where
`m = min(trunc((t_last - t_first) / (n - 1)), 1 s)` — the mean gap and
the 25% reduction both truncating toward zero — falling back to the
originally configured rate when that value is at most 1, faulting when
the shaved average is zero, and doing nothing for fewer samples. -/
theorem calcNewRate_closed_form (perSec : Int) (times : List Int) :
    calcNewRate perSec times =
      if times.length < minSampleSetSize then RateOutcome.noop
      else
        let avg := Int.tdiv (times.getLastD 0 - times.headD 0) ((times.length : Int) - 1)
        let m := min avg timeSecond
        let d := m - Int.tdiv m 4
        if d = 0 then RateOutcome.fault
        else RateOutcome.setRate
          (if Int.tdiv timeSecond d ≤ 1 then perSec else Int.tdiv timeSecond d) := by
  unfold calcNewRate
  split
  · rfl
  · have hmin : ∀ x : Int, (if x > timeSecond then timeSecond else x) = min x timeSecond := by
      intro x
      rcases le_or_lt x timeSecond with h | h
      · simp [min_def, h, not_lt.mpr h]
      · simp [min_def, h, not_le.mpr h]
    simp only [sumGaps_telescope, hmin]

/-! ## Claim C7 -/

/-- C7: the canonical answer list a probe produces contains only answers
whose trimmed data appeared in every one of the `numOfWildcardTests`
probe rounds — if any round contributes no answer with data `v`, then `v`
is absent from the final list — and the list is deduplicated by data. -/
theorem wildcardTest_intersection (rounds : List (List ExtractedAnswer))
    (h : rounds.length = numOfWildcardTests) :
    (∀ a ∈ (wildcardTest rounds).2, ∀ r ∈ rounds, ∃ b ∈ r, trimChar '.' b.Data = a.Data) ∧
    (∀ v : GoStr, (∃ r ∈ rounds, ∀ b ∈ r, trimChar '.' b.Data ≠ v) →
      ∀ a ∈ (wildcardTest rounds).2, a.Data ≠ v) ∧
    ((wildcardTest rounds).2.map ExtractedAnswer.Data).Nodup := by
  have hmem : ∀ a ∈ (wildcardTest rounds).2, ∀ r ∈ rounds, ∃ b ∈ r, trimChar '.' b.Data = a.Data := by
    intro a ha r hr
    rw [wildcardTest_snd] at ha
    have hset : a.Data ∈ probeSet rounds := (mem_finalLoop _ _ _ _ ha).1
    cases rounds with
    | nil => simp [numOfWildcardTests] at h
    | cons r0 rs =>
      have := (mem_probeSet r0 rs a.Data).mp hset
      exact (mem_recordData r a.Data).mp (this r hr)
  refine ⟨hmem, ?_, by rw [wildcardTest_snd]; exact finalLoop_data_nodup _ _ _⟩
  rintro v ⟨r, hr, hnone⟩ a ha hav
  rcases hmem a ha r hr with ⟨b, hb, hbd⟩
  exact hnone b hb (hav ▸ hbd)

/-- Witness for C7 at the concrete probe rounds `c7Rounds`. -/
theorem wildcardTest_intersection_witness :
    (∀ a ∈ (wildcardTest c7Rounds).2, ∀ r ∈ c7Rounds, ∃ b ∈ r, trimChar '.' b.Data = a.Data) ∧
    (∀ v : GoStr, (∃ r ∈ c7Rounds, ∀ b ∈ r, trimChar '.' b.Data ≠ v) →
      ∀ a ∈ (wildcardTest c7Rounds).2, a.Data ≠ v) ∧
    ((wildcardTest c7Rounds).2.map ExtractedAnswer.Data).Nodup :=
  wildcardTest_intersection c7Rounds (by decide)

/-! ## Claim C8 -/

/-- C8 counterexample: on `a.b.c.domain.com` under `domain.com` with the
registry `c8Registry`, the code walks outward-in — it consults the base
domain's state (data `10.0.0.1`) and never the full name's — and returns
false, while the claimed walk from depth 1 up to the full question name
intersects `192.168.1.64` across its three levels and returns true. -/
theorem testIPs_direction_counterexample :
    testIPsAcrossLevels c8Registry "a.b.c.domain.com".data "domain.com".data = false ∧
    specClaimTestIPs c8Registry "a.b.c.domain.com".data "domain.com".data = true := by
  constructor
  · decide
  · decide

/-- C8 amended: the heuristic returns false whenever the question name
has fewer than 3 labels more than the base domain; otherwise it walks the
suffixes from one label below the full question name inward, down to and
including the base domain, stopping at the first level with no state or
empty answers, seeds the record set from the first (outermost) walked
level, intersects with each inner level, and returns true iff the
intersection is non-empty. -/
theorem testIPsAcrossLevels_eq_specAmended (reg : Registry) (name domain : GoStr) :
    testIPsAcrossLevels reg name domain = specAmendedTestIPs reg name domain := by
  simp only [testIPsAcrossLevels, specAmendedTestIPs]
  by_cases hg : (splitOnChar '.' (toLowerStr name)).length - (splitOnChar '.' domain).length < 3
  · rw [if_pos (Or.inr hg), if_pos hg]
  · have h1 : ¬ ((splitOnChar '.' (toLowerStr name)).length ≤ (splitOnChar '.' domain).length ∨
        (splitOnChar '.' (toLowerStr name)).length - (splitOnChar '.' domain).length < 3) := by
      omega
    rw [if_neg h1, if_neg hg]
    rw [tiaLoop_eq_levelsWalk reg _ _ 1 (le_refl 1) []]
    rw [suffixes_reverse_eq (fun i => joinChar '.' ((splitOnChar '.' (toLowerStr name)).drop i))
      (fun c => joinChar '.' ((splitOnChar '.' (toLowerStr name)).drop
        ((splitOnChar '.' (toLowerStr name)).length - c)))
      (splitOnChar '.' domain).length
      ((splitOnChar '.' (toLowerStr name)).length - (splitOnChar '.' domain).length)
      (splitOnChar '.' (toLowerStr name)).length (by omega) (fun c => rfl)]
    rfl

/-! ## Claim C1 -/

/-- C1 counterexample: when the question name equals the base domain, the
claimed walk — from the base domain up to but not including the full
question name — is empty and the claim predicts the heuristic's result
(false), but the code checks the full question name itself and matches
the base domain's detected, answerless state, returning true. -/
theorem wildcardDetected_full_name_checked :
    WildcardDetected true c1Registry nullProbe c1Resp "domain.com".data = true ∧
    specClaimWildcardDetected true c1Registry nullProbe c1Resp "domain.com".data = false := by
  constructor
  · decide
  · decide

/-- C1 amended: `WildcardDetected` canonicalises the question name and
base domain to lowercase with no trailing dot and walks suffixes
innermost-first, creating and probing a `WildcardState` on first
encounter, returning true at the first matching level, and otherwise the
cross-level heuristic's result; when the name has more labels than the
base the suffixes run from the base domain's label count up to one label
short of the full name, when the label counts are equal the single
suffix checked is the full question name itself, and when the name has
fewer labels no suffix is checked. -/
theorem WildcardDetected_eq_specAmended (good : Bool) (reg : Registry)
    (probe : GoStr → Wildcard) (resp : Msg) (domain : GoStr) :
    WildcardDetected good reg probe resp domain =
      specAmendedWildcardDetected good reg probe resp domain := by
  simp only [WildcardDetected, specAmendedWildcardDetected]
  by_cases hgood : good = false
  · rw [if_pos hgood, if_pos hgood]
  · rw [if_neg hgood, if_neg hgood]
    generalize toLowerStr (RemoveLastDot (question0 resp).Name) = nm
    generalize toLowerStr (RemoveLastDot domain) = dm
    generalize splitOnChar '.' nm = labels0
    generalize (splitOnChar '.' dm).length = base
    rcases Nat.lt_trichotomy labels0.length base with hlt | heq | hgt
    · rw [if_neg (by omega : ¬ labels0.length > base),
        if_pos hlt,
        if_neg (by omega : ¬ labels0.length = base),
        (by omega : labels0.length - base = 0)]
      rfl
    · rw [if_neg (by omega : ¬ labels0.length > base),
        if_neg (by omega : ¬ labels0.length < base),
        if_pos heq,
        heq, Nat.sub_self]
      rfl
    · have htail : labels0.tail.length = labels0.length - 1 := List.length_tail labels0
      rw [if_pos hgt,
        if_neg (by omega : ¬ labels0.tail.length < base),
        if_neg (by omega : ¬ labels0.length = base),
        (by omega : labels0.tail.length - base + 1 = labels0.length - base)]
      have hmap : (fun i => joinChar '.' (labels0.tail.drop i)) =
          (fun i => joinChar '.' (labels0.drop (i + 1))) := by
        funext i
        rw [← List.drop_one, List.drop_drop, Nat.add_comm]
      rw [hmap]
      rw [range_reverse_eq (fun j => joinChar '.' (labels0.drop j))
        (fun c => joinChar '.' (labels0.drop (labels0.length - c)))
        (fun i => joinChar '.' (labels0.drop (i + 1)))
        base (labels0.length - base) labels0.length (by omega)
        (fun i => rfl) (fun c => rfl)]

/-! ## Claim C9 -/

/-- C9 counterexample: the character-selection index is
`rand.Int() % (ldhLen - 1)` with `ldhLen = 37`, so under the identity
shuffle the last LDH character `'-'` is never drawn: characters are not
drawn uniformly from all of `LDHChars`. -/
theorem unlikelyName_dash_unreachable :
    ('-' ∈ LDHChars) ∧
    ∀ (sels : List Nat) (l : Nat), '-' ∉ rawLabel LDHChars sels l := by
  refine ⟨by decide, ?_⟩
  intro sels l hmem
  exact absurd (rawLabel_mem_take LDHChars (by decide) sels l '-' hmem) (by decide)

/-- C9 amended: `UnlikelyName(sub)` draws a label length uniformly from
`[MinLabelLen, min(MaxLabelLen, 253 - len(sub) - 1)]` (for `sub` short
enough for that interval to be meaningful), fills the label by drawing
from the first `ldhLen - 1 = 36` characters of the shuffled LDH alphabet
— so within one call a shuffled-out character of `LDHChars` is never
drawn — trims leading and trailing dashes, and returns either the empty
string or the trimmed label joined to `sub` with a dot. -/
theorem UnlikelyName_spec (sub : GoStr) (perm : List Char) (lenChoice : Nat) (sels : List Nat)
    (hperm : perm.Perm LDHChars) (hlen : lenChoice < labelLenRange sub)
    (hsub : sub.length ≤ 246) :
    MinLabelLen ≤ MinLabelLen + lenChoice ∧
    MinLabelLen + lenChoice ≤ min MaxLabelLen (MaxDNSNameLen - sub.length - 1) ∧
    (rawLabel perm sels (MinLabelLen + lenChoice)).length = MinLabelLen + lenChoice ∧
    (∀ c ∈ rawLabel perm sels (MinLabelLen + lenChoice), c ∈ perm.take (perm.length - 1)) ∧
    (∀ c ∈ perm.take (perm.length - 1), c ∈ LDHChars) ∧
    (UnlikelyName sub perm lenChoice sels = [] ∨
      ∃ label : GoStr, UnlikelyName sub perm lenChoice sels = label ++ '.' :: sub ∧
        label ≠ [] ∧ label.head? ≠ some '-' ∧ label.getLast? ≠ some '-' ∧
        ∀ c ∈ label, c ∈ perm.take (perm.length - 1)) := by
  have h37 : perm.length = 37 := hperm.length_eq.trans (by decide)
  refine ⟨Nat.le_add_right _ _, ?_, by simp [rawLabel], rawLabel_mem_take perm h37 sels _, ?_, ?_⟩
  · simp only [labelLenRange, MaxDNSNameLen, MaxLabelLen, MinLabelLen] at hlen ⊢
    split at hlen
    · omega
    · split at hlen <;> omega
  · intro c hc
    exact hperm.mem_iff.mp (List.take_subset _ _ hc)
  · by_cases hnl : trimChar '-' (rawLabel perm sels (MinLabelLen + lenChoice)) = []
    · left
      simp [UnlikelyName, hnl]
    · right
      refine ⟨trimChar '-' (rawLabel perm sels (MinLabelLen + lenChoice)),
        by simp [UnlikelyName, hnl], hnl, ?_, ?_, ?_⟩
      · intro hh; exact trimChar_head_ne '-' _ '-' hh rfl
      · intro hh; exact trimChar_getLast_ne '-' _ '-' hh rfl
      · intro ch hch
        exact rawLabel_mem_take perm h37 sels _ ch (mem_trimChar '-' _ ch hch)

/-- Witness for C9 (amended) at `sub = "x"`, the identity shuffle,
length draw 0, and an empty selection stream. -/
theorem UnlikelyName_spec_witness :
    MinLabelLen ≤ MinLabelLen + 0 ∧
    MinLabelLen + 0 ≤ min MaxLabelLen (MaxDNSNameLen - ("x".data : GoStr).length - 1) ∧
    (rawLabel LDHChars [] (MinLabelLen + 0)).length = MinLabelLen + 0 ∧
    (∀ c ∈ rawLabel LDHChars [] (MinLabelLen + 0), c ∈ LDHChars.take (LDHChars.length - 1)) ∧
    (∀ c ∈ LDHChars.take (LDHChars.length - 1), c ∈ LDHChars) ∧
    (UnlikelyName "x".data LDHChars 0 [] = [] ∨
      ∃ label : GoStr, UnlikelyName "x".data LDHChars 0 [] = label ++ '.' :: "x".data ∧
        label ≠ [] ∧ label.head? ≠ some '-' ∧ label.getLast? ≠ some '-' ∧
        ∀ c ∈ label, c ∈ LDHChars.take (LDHChars.length - 1)) :=
  UnlikelyName_spec "x".data LDHChars 0 [] (List.Perm.refl _) (by decide) (by decide)

end Resolve
